import Mathlib

/-!
Verification development for the procedure/call code-generation layer of the
Odin compiler backend (src/llvm_backend_proc.cpp).  The C++ source is shallowly
embedded: stateful code-generation steps become explicit state passing over a
small machine state (an address-indexed memory plus an allocation counter),
pure dispatch tables become Lean functions, and machine integers are Nat/Int
with explicit reduction modulo 2^w where overflow matters.
-/

namespace OdinLB

/-! ## Common machine model

Memory cells are indexed by natural-number addresses and hold integer values.
A stack allocation (lb_add_local / lb_add_local_generated) hands out the next
unused address, so an address is fresh exactly when it is at least the
allocation counter. -/

/-- Code-generation state: an address-indexed memory and an allocation counter.
All previously allocated addresses are strictly below next. -/
structure CGState where
  mem : Nat → Int
  next : Nat

/-- Write the value v to address a. -/
def CGState.write (s : CGState) (a : Nat) (v : Int) : CGState :=
  { s with mem := fun x => if x = a then v else s.mem x }

/-- Allocate a fresh stack slot (lb_add_local): returns its address and the
updated state. -/
def CGState.alloc (s : CGState) : Nat × CGState :=
  (s.next, { s with next := s.next + 1 })

/-- Allocate n consecutive fresh stack slots, returning their addresses in
allocation order. -/
def allocN : Nat → CGState → List Nat × CGState
  | 0, s => ([], s)
  | n + 1, s =>
    let first := s.alloc
    let rest := allocN n first.2
    (first.1 :: rest.1, rest.2)

/-- Association-list lookup with Nat keys (models the pointer-keyed map_get). -/
def natMapLookup (m : List (Nat × List Int)) (k : Nat) : Option (List Int) :=
  (m.find? (fun p => p.1 == k)).map Prod.snd

/-- Association-list lookup with String keys (models string_map_get). -/
def strMapLookup (m : List (String × Nat)) (k : String) : Option Nat :=
  (m.find? (fun p => p.1 == k)).map Prod.snd

/-! ## C9: procedure descriptor creation (lb_create_procedure, lines 67-373)

The module state carries the link-name→value member table consulted by the
cache check at lines 93-100, the link-name→descriptor table read by
string_map_must_get at line 98, a descriptor id counter, and a count of native
callables created by LLVMAddFunction. -/

/-- Module-wide state relevant to lb_create_procedure: the members cache
(link name to procedure value), the procedures table (link name to descriptor),
a descriptor id source and the number of native callables created so far. -/
structure LBModule where
  members : List (String × Nat)
  procedures : List (String × Nat)
  nextDescriptor : Nat
  nativeCallablesCreated : Nat

/-- Embedding of lb_create_procedure (lines 67-100 and 369-373).  Unspecialized
polymorphic procedures are skipped with a null result (lines 71-77).  If the
link name is already in the members cache, the existing descriptor is returned
from the procedures table and nothing is rebuilt (lines 93-100).  Otherwise a
new descriptor and a new native callable are created and registered under the
link name.  Modelled from the spec: the registration helpers lb_add_member and
lb_add_procedure_value are outside this translation unit; per the spec they
insert the value and the descriptor into the module tables under the resolved
link name. -/
def lb_create_procedure (m : LBModule) (linkName : String)
    (isUnspecializedPoly : Bool) : Option Nat × LBModule :=
  if isUnspecializedPoly then (none, m)
  else
    match strMapLookup m.members linkName with
    | some _ => (strMapLookup m.procedures linkName, m)
    | none =>
      let d := m.nextDescriptor
      (some d,
        { members := (linkName, d) :: m.members
          procedures := (linkName, d) :: m.procedures
          nextDescriptor := m.nextDescriptor + 1
          nativeCallablesCreated := m.nativeCallablesCreated + 1 })

/-! ## C5: callee-side copy-in for Indirect parameters
(lb_begin_procedure_body, lines 633-658)

The pointee is modelled as a single memory cell reached through the incoming
parameter pointer; lb_mem_copy_non_overlapping of the sz pointee bytes becomes
a copy of that cell. -/

/-- Embedding of the lbArg_Indirect case of lb_begin_procedure_body
(lines 633-658): for the Odin calling convention a pointee of size at most 16
bytes (or any size when the build_context.internal_by_value override is set)
is duplicated into a fresh local and the parameter is bound to the fresh
pointer; otherwise the incoming pointer is bound unchanged.  Returns the bound
pointer and the updated state. -/
def lb_indirect_param_bind (s : CGState) (incoming : Nat) (sz : Nat)
    (isOdinCC internalByValue : Bool) : Nat × CGState :=
  let doCalleeCopy := isOdinCC && (decide (sz ≤ 16) || internalByValue)
  if doCalleeCopy then
    let a := s.alloc
    let s2 := a.2.write a.1 (a.2.mem incoming)
    (a.1, s2)
  else (incoming, s)

/-! ## C10: named-result binding (lb_begin_procedure_body, lines 662-747)

In the C++ source the fast path guarded by defer_use_checked and
defer_used == 0 declares an outer variable ptr at line 688 that is initialised
to the null value; the split-return branch declares a NEW inner variable
named ptr at line 699 and the return-pointer branch declares another NEW inner
variable named ptr at line 706, both shadowing the outer one, so the pointers
they compute never flow into the outer ptr tested at line 715.  The embedding
reproduces the C++ scoping by giving the inner variables the distinct names
ptrInnerSplit and ptrInnerRet and leaving the outer ptr untouched. -/

/-- Result of binding one named result of a procedure body. -/
inductive ResultBinding where
  | reusedPtr (a : Nat)
  | freshLocal
  deriving DecidableEq

/-- The pointer the fast path computes for result i (lines 690-713): under
split returns the trailing hidden parameter at param_offset +
original_arg_count + i for all but the last result, or hidden parameter 0 for
the last result when a return pointer exists; without split returns the
return-pointer storage (field i of it when there are several results). -/
def lb_named_result_fast_path_candidate (splitReturns hasReturnPtr : Bool)
    (paramOffset originalArgCount i resultCount retPtrParam : Nat) :
    Option Nat :=
  if splitReturns then
    if i + 1 < resultCount then some (paramOffset + originalArgCount + i)
    else if hasReturnPtr then some retPtrParam
    else none
  else if hasReturnPtr then some retPtrParam
  else none

/-- Embedding of the binding decision for named result i (lines 666-735).
Faithful to the C++ scoping: the values computed inside the fast path are
bound to inner shadowing variables and discarded, the outer ptr stays null,
and the test at line 715 reads the outer ptr. -/
def lb_named_result_bind (deferUseChecked : Bool) (deferUsed : Nat)
    (splitReturns hasReturnPtr : Bool)
    (paramOffset originalArgCount i resultCount retPtrParam : Nat) :
    ResultBinding :=
  if deferUseChecked && deferUsed == 0 then
    let ptr : Option Nat := none
    let _ptrInnerSplit : Option Nat :=
      if splitReturns then
        lb_named_result_fast_path_candidate splitReturns hasReturnPtr
          paramOffset originalArgCount i resultCount retPtrParam
      else none
    let _ptrInnerRet : Option Nat :=
      if !splitReturns && hasReturnPtr then
        lb_named_result_fast_path_candidate splitReturns hasReturnPtr
          paramOffset originalArgCount i resultCount retPtrParam
      else none
    match ptr with
    | some a => ResultBinding.reusedPtr a
    | none => ResultBinding.freshLocal
  else ResultBinding.freshLocal

/-! ## C1: split-return reconstruction and the tuple-fix map
(lb_emit_call, lines 1158-1230)

The classified signature appended one hidden trailing pointer per tuple member
except the last (lines 1160-1168), so processed_args is the processed fixed
arguments followed by the hidden pointers, and offset = original_arg_count -
ignored_args is the number of processed fixed arguments.  The native call
writes the first n-1 members through the hidden pointers and returns the last
member as the ordinary result.  The callee is modelled by the values it stores
through the hidden pointers (calleeSlot) together with its ordinary result
(direct).  LLVM value identities (the keys of the pointer-keyed tuple-fix map)
are modelled by fresh numbers from the same allocation counter. -/

/-- Write calleeSlot j through the j-th pointer of ptrs, starting at index j0
(the observable memory effect of lb_emit_call_internal on the hidden trailing
return pointers). -/
def callWriteAux (calleeSlot : Nat → Int) : List Nat → Nat → CGState → CGState
  | [], _, s => s
  | a :: rest, j, s => callWriteAux calleeSlot rest (j + 1) (s.write a (calleeSlot j))

/-- Memory effect of the call on the hidden return pointers. -/
def callWrite (calleeSlot : Nat → Int) (ptrs : List Nat) (s : CGState) : CGState :=
  callWriteAux calleeSlot ptrs 0 s

/-- Outcome of the split-return part of lb_emit_call. -/
structure SplitCallOut where
  hiddenRetPtrs : List Nat
  resultPtrKey : Nat
  loadedResultKey : Nat
  tupleFixValues : List Int
  tupleFixMap : List (Nat × List Int)
  state : CGState

/-- Embedding of lb_emit_call for a callee whose classified signature splits
the multi-value return (lines 1158-1230, non-C-variadic): allocate one hidden
trailing pointer per tuple member except the last and append them to the
processed arguments (1160-1168); issue the call, which stores the leading
members through the hidden pointers and yields the last member directly;
allocate the dummy local result_ptr used only as a unique key (1202);
rebuild the value list by loading processed_args[offset + j] for j below n-1
and appending the direct result (1208-1214); load the dummy local as the
aggregate result (1225, modelled by a fresh value identity); and record the
value list in the tuple-fix map under both the dummy pointer and the loaded
aggregate (1227-1229). -/
def lb_emit_call_split (fixedArgs : List Nat) (n : Nat)
    (calleeSlot : Nat → Int) (direct : Int) (s : CGState) : SplitCallOut :=
  let hidden := allocN (n - 1) s
  let processedArgs := fixedArgs ++ hidden.1
  let s2 := callWrite calleeSlot hidden.1 hidden.2
  let resultPtr := s2.alloc
  let offset := fixedArgs.length
  let fixVals :=
    ((List.range (n - 1)).map
      (fun j => resultPtr.2.mem (processedArgs.getD (offset + j) 0))) ++ [direct]
  let loaded := resultPtr.2.alloc
  { hiddenRetPtrs := hidden.1
    resultPtrKey := resultPtr.1
    loadedResultKey := loaded.1
    tupleFixValues := fixVals
    tupleFixMap := [(resultPtr.1, fixVals), (loaded.1, fixVals)]
    state := loaded.2 }

/-! ## C4: deferred-call attachment (lb_emit_call, lines 1240-1287)

An operand value is either the materialized load of an addressable location or
an immediate with no backing storage. -/

/-- An operand value fed into a call: either the load of an addressable
location (carrying the address it was loaded from) or an immediate value. -/
inductive LBVal where
  | loadedFrom (a : Nat) (v : Int)
  | immediate (v : Int)
  deriving DecidableEq

/-- Address a value was loaded from (meaningful for loadedFrom values). -/
def LBVal.srcAddr : LBVal → Nat
  | .loadedFrom a _ => a
  | .immediate _ => 0

/-- Modelled from the spec: lb_address_from_load_or_generate_local is outside
this translation unit.  Per the source comment at line 1132 (the original
value can be passed if possible) and the spec requirement that an in-by-pointer
deferred companion observe addresses of the original argument values, a value
that is the load of an addressable location yields that location unchanged,
while an immediate is stored into a freshly generated local. -/
def lb_address_from_load_or_generate_local (s : CGState) (v : LBVal) :
    Nat × CGState :=
  match v with
  | .loadedFrom a _ => (a, s)
  | .immediate x =>
    let a := s.alloc
    (a.1, a.2.write a.1 x)

/-- The five deferred-procedure binding modes plus none (DeferredProcedureKind). -/
inductive DeferredKind where
  | noneKind
  | inKind
  | in_by_ptr
  | outKind
  | out_by_ptr
  | in_out
  | in_out_by_ptr
  deriving DecidableEq

/-- Whether the mode passes the replayed values by address (the by_ptr
fallthrough cases at lines 1255-1268). -/
def DeferredKind.byPtr : DeferredKind → Bool
  | .in_by_ptr | .out_by_ptr | .in_out_by_ptr => true
  | _ => false

/-- One argument registered for a Deferred Call Entry. -/
inductive DeferArg where
  | byVal (v : LBVal)
  | byPtrArg (a : Nat)
  deriving DecidableEq

/-- Convert each replayed value to a pointer (the by_ptr loop at lines
1279-1284), threading the state. -/
def mapAddrs (s : CGState) : List LBVal → List Nat × CGState
  | [] => ([], s)
  | x :: xs =>
    let a := lb_address_from_load_or_generate_local s x
    let rest := mapAddrs a.2 xs
    (a.1 :: rest.1, rest.2)

/-- Embedding of the deferred-procedure attachment (lines 1249-1286): select
the replayed values according to the binding mode (the switch at lines
1252-1278), then, for the by-pointer modes, convert each value to an address
(lines 1279-1284).  Returns the argument list registered for the Deferred
Call Entry and the updated state. -/
def lb_attach_deferred (k : DeferredKind) (inArgs outVals : List LBVal)
    (s : CGState) : List DeferArg × CGState :=
  let base : List LBVal :=
    match k with
    | .noneKind => []
    | .inKind | .in_by_ptr => inArgs
    | .outKind | .out_by_ptr => outVals
    | .in_out | .in_out_by_ptr => inArgs ++ outVals
  if k.byPtr then
    let addrs := mapAddrs s base
    (addrs.1.map DeferArg.byPtrArg, addrs.2)
  else (base.map DeferArg.byVal, s)

/-! ## C3: SIMD shift builtins (lb_build_builtin_simd_proc, lines 1378-1411)

Lane values are naturals below 2^w with w = sz*8 the element bit width; the
signed right shift interprets them in twos complement. -/

/-- Twos-complement reading of a w-bit lane. -/
def toSigned (w x : Nat) : Int :=
  if x < 2 ^ (w - 1) then (x : Int) else (x : Int) - 2 ^ w

/-- Truncate an integer back to a w-bit lane. -/
def fromSigned (w : Nat) (v : Int) : Nat :=
  (v % (2 ^ w : Int)).toNat

/-- LLVM shl on a w-bit lane. -/
def llvm_shl (w x s : Nat) : Nat := (x <<< s) % 2 ^ w

/-- LLVM lshr on a w-bit lane. -/
def llvm_lshr (_w x s : Nat) : Nat := x >>> s

/-- LLVM ashr on a w-bit lane (arithmetic shift = floor division by 2^s on the
twos-complement reading). -/
def llvm_ashr (w x s : Nat) : Nat := fromSigned w (Int.fdiv (toSigned w x) (2 ^ s))

/-- The four SIMD shift builtin identifiers (lines 1378-1381). -/
inductive SimdShiftId where
  | simd_shl
  | simd_shr
  | simd_shl_masked
  | simd_shr_masked
  deriving DecidableEq

/-- Masked flag per builtin (the switch at lines 1390-1395). -/
def SimdShiftId.isMasked : SimdShiftId → Bool
  | .simd_shl_masked | .simd_shr_masked => true
  | _ => false

/-- Shift opcode selection per builtin and signedness (lines 1391-1394). -/
def simdShiftOp (w : Nat) (isSigned : Bool) : SimdShiftId → Nat → Nat → Nat
  | .simd_shl | .simd_shl_masked => llvm_shl w
  | .simd_shr | .simd_shr_masked =>
    if isSigned then llvm_ashr w else llvm_lshr w

/-- One lane of the shift lowering (lines 1396-1409): bits is the splat of
sz*8 - 1; the masked (C logic) variant ANDs the shift amount with bits before
shifting, the unmasked (Odin logic) variant compares the shift amount ULE bits
and selects the shifted value for in-range amounts and the zero value
otherwise. -/
def lb_simd_shift_lane (id : SimdShiftId) (isSigned : Bool) (sz x s : Nat) :
    Nat :=
  let bits := sz * 8 - 1
  if id.isMasked then simdShiftOp (sz * 8) isSigned id x (s &&& bits)
  else if s ≤ bits then simdShiftOp (sz * 8) isSigned id x s
  else 0

/-- Vector form of the shift lowering: the lane rule applied pointwise. -/
def lb_simd_shift (id : SimdShiftId) (isSigned : Bool) (sz : Nat)
    (xs ss : List Nat) : List Nat :=
  List.zipWith (lb_simd_shift_lane id isSigned sz) xs ss

/-! ## C2: simd_runtime_swizzle (lb_build_builtin_simd_proc, lines 1726-1993) -/

/-- Target architectures distinguished by the swizzle lowering. -/
inductive TargetArch where
  | amd64
  | i386
  | arm64
  | arm32
  | wasm32
  | wasm64p32
  | otherArch
  deriving DecidableEq

/-- The hardware table-lookup selection (lines 1742-1809): for one-byte
elements the enumerated (architecture, lane count) pairs name a dedicated
intrinsic; every other combination falls back to emulation. -/
def hardware_swizzle_intrinsic (arch : TargetArch) (elemSize count : Nat) :
    Option String :=
  if elemSize = 1 then
    match arch with
    | .amd64 | .i386 =>
      if count = 16 then some "llvm.x86.ssse3.pshuf.b.128"
      else if count = 32 then some "llvm.x86.avx2.pshuf.b"
      else if count = 64 then some "llvm.x86.avx512.pshuf.b.512"
      else none
    | .arm64 =>
      if count = 16 then some "llvm.aarch64.neon.tbl1"
      else if count = 32 then some "llvm.aarch64.neon.tbl2"
      else if count = 48 then some "llvm.aarch64.neon.tbl3"
      else if count = 64 then some "llvm.aarch64.neon.tbl4"
      else none
    | .arm32 =>
      if count = 8 then some "llvm.arm.neon.vtbl1"
      else if count = 16 then some "llvm.arm.neon.vtbl2"
      else if count = 24 then some "llvm.arm.neon.vtbl3"
      else if count = 32 then some "llvm.arm.neon.vtbl4"
      else none
    | .wasm32 | .wasm64p32 =>
      if count = 16 then some "llvm.wasm.swizzle" else none
    | .otherArch => none
  else none

/-- The portable extract/insert fallback (lines 1941-1992): for each output
lane i, extract index i, AND it with the mask count - 1 (index_mask, lines
1949-1964), extract the source lane at the masked index, and insert it at
position i. -/
def swizzle_fallback (count : Nat) (src idx : List Nat) : List Nat :=
  (List.range count).map fun i => src.getD ((idx.getD i 0) &&& (count - 1)) 0

/-- Modelled from the spec: the hardware table-lookup lowerings are named
intrinsics whose semantics live outside the repository; the spec states the
masking rule both lowerings share as index modulo lane count, so the
spec-side lowering reads source lane index mod count for each output lane. -/
def swizzle_spec_mod (count : Nat) (src idx : List Nat) : List Nat :=
  (List.range count).map fun i => src.getD ((idx.getD i 0) % count) 0

/-! ## C6: saturating arithmetic builtins
(lb_build_builtin_proc, lines 2902-2933) -/

/-- The two saturating builtin identifiers. -/
inductive SatBuiltin where
  | saturating_add
  | saturating_sub
  deriving DecidableEq

/-- Intrinsic name selection (lines 2913-2924): unsigned types use
llvm.uadd.sat / llvm.usub.sat, signed types llvm.sadd.sat / llvm.ssub.sat. -/
def lb_saturating_intrinsic_name (isUnsigned : Bool) : SatBuiltin → String :=
  if isUnsigned then fun id =>
    match id with
    | .saturating_add => "llvm.uadd.sat"
    | .saturating_sub => "llvm.usub.sat"
  else fun id =>
    match id with
    | .saturating_add => "llvm.sadd.sat"
    | .saturating_sub => "llvm.ssub.sat"

/-- Modelled from the spec: semantics of llvm.uadd.sat on w-bit operands,
clamping at the unsigned maximum. -/
def llvm_uadd_sat (w a b : Nat) : Nat := min (a + b) (2 ^ w - 1)

/-- Modelled from the spec: semantics of llvm.usub.sat, clamping at zero
(natural-number subtraction already truncates at zero). -/
def llvm_usub_sat (_w a b : Nat) : Nat := a - b

/-- Largest w-bit signed value. -/
def intMax (w : Nat) : Int := 2 ^ (w - 1) - 1

/-- Smallest w-bit signed value. -/
def intMin (w : Nat) : Int := -(2 ^ (w - 1))

/-- Modelled from the spec: semantics of llvm.sadd.sat, clamping at the signed
bounds. -/
def llvm_sadd_sat (w : Nat) (a b : Int) : Int :=
  max (intMin w) (min (a + b) (intMax w))

/-- Modelled from the spec: semantics of llvm.ssub.sat, clamping at the signed
bounds. -/
def llvm_ssub_sat (w : Nat) (a b : Int) : Int :=
  max (intMin w) (min (a - b) (intMax w))

/-- The saturating lowering for unsigned operands: the single clamped value of
the selected intrinsic (lines 2914-2918 and 2929-2932), with no overflow
flag. -/
def lb_saturating_unsigned (w : Nat) : SatBuiltin → Nat → Nat → Nat
  | .saturating_add => llvm_uadd_sat w
  | .saturating_sub => llvm_usub_sat w

/-- The saturating lowering for signed operands: the single clamped value of
the selected intrinsic (lines 2919-2924 and 2929-2932), with no overflow
flag. -/
def lb_saturating_signed (w : Nat) : SatBuiltin → Int → Int → Int
  | .saturating_add => llvm_sadd_sat w
  | .saturating_sub => llvm_ssub_sat w

/-! ## C7: atomic builtin lowering (lb_build_builtin_proc, lines 3048-3250)

llvm_atomic_ordering_from_odin converts the explicit Odin ordering argument to
an LLVM ordering; the theorems quantify over the converted ordering, so the
threading claim is about what reaches the emitted instruction. -/

/-- LLVM atomic orderings. -/
inductive AtomicOrdering where
  | unordered
  | monotonic
  | acquire
  | release
  | acquireRelease
  | seqcst
  deriving DecidableEq

/-- The atomic load identifiers (lines 3086-3087). -/
inductive AtomicLoadId where
  | atomic_load
  | atomic_load_explicit
  deriving DecidableEq

/-- Ordering set on the emitted load (lines 3103-3113): sequentially
consistent for the plain builtin, the converted explicit argument otherwise. -/
def lb_atomic_load_ordering : AtomicLoadId → AtomicOrdering → AtomicOrdering
  | .atomic_load, _ => .seqcst
  | .atomic_load_explicit, ord => ord

/-- The atomic store identifiers (lines 3048-3049). -/
inductive AtomicStoreId where
  | atomic_store
  | atomic_store_explicit
  deriving DecidableEq

/-- Ordering set on the emitted store (lines 3066-3076). -/
def lb_atomic_store_ordering : AtomicStoreId → AtomicOrdering → AtomicOrdering
  | .atomic_store, _ => .seqcst
  | .atomic_store_explicit, ord => ord

/-- LLVM atomicrmw operations used by the fetch-modify builtins. -/
inductive RMWOp where
  | addOp
  | subOp
  | andOp
  | nandOp
  | orOp
  | xorOp
  | xchgOp
  deriving DecidableEq

/-- The fetch-modify builtin identifiers (lines 3155-3168). -/
inductive AtomicRMWId where
  | atomic_add
  | atomic_sub
  | atomic_and
  | atomic_nand
  | atomic_or
  | atomic_xor
  | atomic_exchange
  | atomic_add_explicit
  | atomic_sub_explicit
  | atomic_and_explicit
  | atomic_nand_explicit
  | atomic_or_explicit
  | atomic_xor_explicit
  | atomic_exchange_explicit
  deriving DecidableEq

/-- Operation and ordering of the emitted atomicrmw (the switch at lines
3176-3191): plain builtins use sequentially consistent ordering, explicit
builtins the converted ordering argument. -/
def lb_atomic_rmw : AtomicRMWId → AtomicOrdering → RMWOp × AtomicOrdering
  | .atomic_add, _ => (.addOp, .seqcst)
  | .atomic_sub, _ => (.subOp, .seqcst)
  | .atomic_and, _ => (.andOp, .seqcst)
  | .atomic_nand, _ => (.nandOp, .seqcst)
  | .atomic_or, _ => (.orOp, .seqcst)
  | .atomic_xor, _ => (.xorOp, .seqcst)
  | .atomic_exchange, _ => (.xchgOp, .seqcst)
  | .atomic_add_explicit, ord => (.addOp, ord)
  | .atomic_sub_explicit, ord => (.subOp, ord)
  | .atomic_and_explicit, ord => (.andOp, ord)
  | .atomic_nand_explicit, ord => (.nandOp, ord)
  | .atomic_or_explicit, ord => (.orOp, ord)
  | .atomic_xor_explicit, ord => (.xorOp, ord)
  | .atomic_exchange_explicit, ord => (.xchgOp, ord)

/-- The compare-exchange builtin identifiers (lines 3200-3203). -/
inductive CmpXchgId where
  | strong
  | weak
  | strong_explicit
  | weak_explicit
  deriving DecidableEq

/-- Configuration of the emitted cmpxchg instruction. -/
structure CmpXchgInstr where
  successOrdering : AtomicOrdering
  failureOrdering : AtomicOrdering
  isWeak : Bool
  deriving DecidableEq

/-- Orderings and weak flag of the emitted cmpxchg (the switch at lines
3215-3220 and LLVMSetWeak at line 3231): plain variants use sequentially
consistent success and failure orderings, explicit variants thread both
converted ordering arguments; weak variants set the weak flag. -/
def lb_atomic_cmpxchg : CmpXchgId → AtomicOrdering → AtomicOrdering →
    CmpXchgInstr
  | .strong, _, _ => ⟨.seqcst, .seqcst, false⟩
  | .weak, _, _ => ⟨.seqcst, .seqcst, true⟩
  | .strong_explicit, so, fo => ⟨so, fo, false⟩
  | .weak_explicit, so, fo => ⟨so, fo, true⟩

/-! ## C8: variadic argument packing
(lb_build_call_expr_internal, lines 4168-4389, non-C-variadic path) -/

/-- A processed call-site argument slot. -/
inductive CallArg where
  | unset
  | value (v : Int)
  | nilSlice
  | packedSlice (elems : List Int)
  | defaulted
  deriving DecidableEq

/-- The positional loop (lines 4173-4300) for a non-C-variadic callee, started
at parameter index i: each argument before the variadic index is added as an
ordinary value; when the loop reaches the variadic index the remaining
arguments form the variadic tail, which packs into a slice when non-empty and
otherwise leaves the lb_const_nil slice value (line 4186), and the loop
breaks. -/
def lb_positional_args (isVariadic : Bool) (variadicIndex : Nat) :
    Nat → List Int → List CallArg
  | _, [] => []
  | i, v :: rest =>
    if isVariadic && variadicIndex == i then
      let variadicTail := v :: rest
      if variadicTail.length == 0 then [CallArg.nilSlice]
      else [CallArg.packedSlice variadicTail]
    else CallArg.value v :: lb_positional_args isVariadic variadicIndex (i + 1) rest

/-- The fixup loop (lines 4350-4385) for a non-C-variadic callee: an unset
variadic slot receives the slice nil value (lines 4358-4362); any other unset
slot is synthesized from the parameter default policy (lines 4366-4380);
everything else is converted to the parameter type, which leaves the slot
unchanged in the model (line 4382). -/
def lb_fixup_args (paramCount variadicIndex : Nat) (isVariadic : Bool)
    (args : List CallArg) : List CallArg :=
  (List.range paramCount).map fun idx =>
    let a := args.getD idx CallArg.unset
    if isVariadic && idx == variadicIndex then
      match a with
      | CallArg.unset => CallArg.nilSlice
      | other => other
    else
      match a with
      | CallArg.unset => CallArg.defaulted
      | other => other

/-- Full argument assembly for a non-C-variadic callee: positional loop
(lines 4173-4300), array_resize to the parameter count padding with unset
slots (lines 4302-4304), fixup loop (lines 4350-4385); the call is issued with
exactly paramCount arguments (lines 4387-4389). -/
def lb_build_call_args (paramCount variadicIndex : Nat) (isVariadic : Bool)
    (positional : List Int) : List CallArg :=
  let args0 := lb_positional_args isVariadic variadicIndex 0 positional
  let args1 := args0.take paramCount ++
    List.replicate (paramCount - args0.length) CallArg.unset
  lb_fixup_args paramCount variadicIndex isVariadic args1

/-! ## Helper lemmas -/

theorem allocN_fst : ∀ (n : Nat) (s : CGState),
    (allocN n s).1 = (List.range n).map (fun j => s.next + j) := by
  intro n
  induction n with
  | zero => intro s; rfl
  | succ n ih =>
    intro s
    have hshift : (fun j => s.next + 1 + j) = (fun j => s.next + (j + 1)) := by
      funext j; omega
    simp [allocN, CGState.alloc, ih, List.range_succ_eq_map, List.map_map,
      Function.comp_def, hshift]

theorem allocN_mem : ∀ (n : Nat) (s : CGState), (allocN n s).2.mem = s.mem := by
  intro n
  induction n with
  | zero => intro s; rfl
  | succ n ih => intro s; simp [allocN, CGState.alloc, ih]

theorem allocN_next : ∀ (n : Nat) (s : CGState),
    (allocN n s).2.next = s.next + n := by
  intro n
  induction n with
  | zero => intro s; rfl
  | succ n ih => intro s; simp [allocN, CGState.alloc, ih]; omega

theorem callWriteAux_next (f : Nat → Int) :
    ∀ (ptrs : List Nat) (j : Nat) (s : CGState),
    (callWriteAux f ptrs j s).next = s.next := by
  intro ptrs
  induction ptrs with
  | nil => intro j s; rfl
  | cons a rest ih => intro j s; simp [callWriteAux, ih, CGState.write]

theorem callWriteAux_mem_of_not_mem (f : Nat → Int) :
    ∀ (ptrs : List Nat) (j : Nat) (s : CGState) (x : Nat), x ∉ ptrs →
    (callWriteAux f ptrs j s).mem x = s.mem x := by
  intro ptrs
  induction ptrs with
  | nil => intro j s x _; rfl
  | cons a rest ih =>
    intro j s x hx
    have hxa : x ≠ a := by intro hc; exact hx (by simp [hc])
    have hxrest : x ∉ rest := fun hc => hx (by simp [hc])
    simp [callWriteAux, ih (j + 1) _ x hxrest, CGState.write, hxa]

theorem strMapLookup_cons_self (k : String) (v : Nat)
    (l : List (String × Nat)) : strMapLookup ((k, v) :: l) k = some v := by
  unfold strMapLookup
  rw [List.find?_cons_of_pos _ (by simp)]
  rfl

theorem callWriteAux_mem_at (f : Nat → Int) :
    ∀ (ptrs : List Nat) (j : Nat) (s : CGState) (i : Nat) (hi : i < ptrs.length),
    ptrs.Nodup →
    (callWriteAux f ptrs j s).mem (ptrs.get ⟨i, hi⟩) = f (j + i) := by
  intro ptrs
  induction ptrs with
  | nil => intro j s i hi; exact absurd hi (by simp)
  | cons a rest ih =>
    intro j s i hi hnd
    have hmem : a ∉ rest := (List.nodup_cons.mp hnd).1
    have hndrest : rest.Nodup := (List.nodup_cons.mp hnd).2
    match i with
    | 0 =>
      simp [callWriteAux, callWriteAux_mem_of_not_mem f rest (j + 1) _ a hmem,
        CGState.write]
    | i + 1 =>
      have := ih (j + 1) (s.write a (f j)) i (by simpa using hi) hndrest
      simp only [callWriteAux, List.get_cons_succ]
      rw [this]
      congr 1
      omega

theorem map_range_ext (m : Nat) (f g : Nat → Int)
    (h : ∀ j, j < m → f j = g j) :
    (List.range m).map f = (List.range m).map g := by
  induction m with
  | zero => rfl
  | succ m ih =>
    simp [List.range_succ, h m (by omega), ih (fun j hj => h j (by omega))]

/-! ## Claim theorems -/

/-- Claim C7: atomic load, store, fetch-modify and compare-exchange builtins
invoked without an explicit ordering argument emit sequentially consistent
operations; the _explicit variants thread the supplied ordering through
unchanged (compare-exchange threading both success and failure orderings);
weak compare-exchange variants set the weak flag while strong variants do
not. -/
theorem lb_atomic_orderings_and_weakness :
    (∀ ord : AtomicOrdering,
      lb_atomic_load_ordering AtomicLoadId.atomic_load ord
          = AtomicOrdering.seqcst ∧
      lb_atomic_load_ordering AtomicLoadId.atomic_load_explicit ord = ord ∧
      lb_atomic_store_ordering AtomicStoreId.atomic_store ord
          = AtomicOrdering.seqcst ∧
      lb_atomic_store_ordering AtomicStoreId.atomic_store_explicit ord = ord) ∧
    (∀ ord : AtomicOrdering,
      lb_atomic_rmw AtomicRMWId.atomic_add ord
          = (RMWOp.addOp, AtomicOrdering.seqcst) ∧
      lb_atomic_rmw AtomicRMWId.atomic_sub ord
          = (RMWOp.subOp, AtomicOrdering.seqcst) ∧
      lb_atomic_rmw AtomicRMWId.atomic_and ord
          = (RMWOp.andOp, AtomicOrdering.seqcst) ∧
      lb_atomic_rmw AtomicRMWId.atomic_nand ord
          = (RMWOp.nandOp, AtomicOrdering.seqcst) ∧
      lb_atomic_rmw AtomicRMWId.atomic_or ord
          = (RMWOp.orOp, AtomicOrdering.seqcst) ∧
      lb_atomic_rmw AtomicRMWId.atomic_xor ord
          = (RMWOp.xorOp, AtomicOrdering.seqcst) ∧
      lb_atomic_rmw AtomicRMWId.atomic_exchange ord
          = (RMWOp.xchgOp, AtomicOrdering.seqcst) ∧
      lb_atomic_rmw AtomicRMWId.atomic_add_explicit ord = (RMWOp.addOp, ord) ∧
      lb_atomic_rmw AtomicRMWId.atomic_sub_explicit ord = (RMWOp.subOp, ord) ∧
      lb_atomic_rmw AtomicRMWId.atomic_and_explicit ord = (RMWOp.andOp, ord) ∧
      lb_atomic_rmw AtomicRMWId.atomic_nand_explicit ord = (RMWOp.nandOp, ord) ∧
      lb_atomic_rmw AtomicRMWId.atomic_or_explicit ord = (RMWOp.orOp, ord) ∧
      lb_atomic_rmw AtomicRMWId.atomic_xor_explicit ord = (RMWOp.xorOp, ord) ∧
      lb_atomic_rmw AtomicRMWId.atomic_exchange_explicit ord
          = (RMWOp.xchgOp, ord)) ∧
    (∀ so fo : AtomicOrdering,
      lb_atomic_cmpxchg CmpXchgId.strong so fo
          = ⟨AtomicOrdering.seqcst, AtomicOrdering.seqcst, false⟩ ∧
      lb_atomic_cmpxchg CmpXchgId.weak so fo
          = ⟨AtomicOrdering.seqcst, AtomicOrdering.seqcst, true⟩ ∧
      lb_atomic_cmpxchg CmpXchgId.strong_explicit so fo = ⟨so, fo, false⟩ ∧
      lb_atomic_cmpxchg CmpXchgId.weak_explicit so fo = ⟨so, fo, true⟩) :=
  ⟨fun _ => ⟨rfl, rfl, rfl, rfl⟩,
   fun _ => ⟨rfl, rfl, rfl, rfl, rfl, rfl, rfl, rfl, rfl, rfl, rfl, rfl, rfl,
     rfl⟩,
   fun _ _ => ⟨rfl, rfl, rfl, rfl⟩⟩

/-- Claim C10: for every named result the binding decision always takes the
conservative fresh-local fallback: the pointer the fast path computes is bound
only to inner shadowing variables, the outer pointer tested before binding
stays null, so the return-pointer-reuse fast path never produces a binding,
even though the fast path does compute a candidate pointer whenever a return
pointer exists. -/
theorem lb_named_result_fallback_unconditional
    (dc : Bool) (du : Nat) (sr hrp : Bool) (po oac i rc rpp : Nat) :
    lb_named_result_bind dc du sr hrp po oac i rc rpp
        = ResultBinding.freshLocal ∧
    (hrp = true →
      lb_named_result_fast_path_candidate sr hrp po oac i rc rpp ≠ none) := by
  constructor
  · unfold lb_named_result_bind
    split
    · rfl
    · rfl
  · intro h
    subst h
    unfold lb_named_result_fast_path_candidate
    cases sr with
    | false => simp
    | true =>
      by_cases hc : i + 1 < rc <;> simp [hc]

/-- Witness for C10 at concrete inputs: defer use checked, never used, no
split returns, a return pointer present. -/
theorem lb_named_result_fallback_unconditional_witness :
    lb_named_result_bind true 0 false true 1 2 0 1 0
        = ResultBinding.freshLocal ∧
    (true = true →
      lb_named_result_fast_path_candidate false true 1 2 0 1 0 ≠ none) :=
  lb_named_result_fallback_unconditional true 0 false true 1 2 0 1 0

/-- Claim C9: procedure descriptor creation is idempotent per link name: when
the link name is not yet cached, the first creation registers the descriptor
and creates one native callable, and a second creation for the same link name
returns the existing descriptor with the module unchanged, so no second
native callable is created. -/
theorem lb_create_procedure_idempotent (m : LBModule) (ln : String)
    (h : strMapLookup m.members ln = none) :
    (lb_create_procedure m ln false).1 = some m.nextDescriptor ∧
    (lb_create_procedure (lb_create_procedure m ln false).2 ln false).1
        = some m.nextDescriptor ∧
    (lb_create_procedure (lb_create_procedure m ln false).2 ln false).2
        = (lb_create_procedure m ln false).2 ∧
    (lb_create_procedure m ln false).2.nativeCallablesCreated
        = m.nativeCallablesCreated + 1 := by
  simp [lb_create_procedure, h, strMapLookup_cons_self]

/-- Witness for C9: creating the procedure main twice in an empty module. -/
theorem lb_create_procedure_idempotent_witness :
    strMapLookup ([] : List (String × Nat)) "main" = none ∧
    ((lb_create_procedure ⟨[], [], 0, 0⟩ "main" false).1 = some 0 ∧
     (lb_create_procedure
        (lb_create_procedure ⟨[], [], 0, 0⟩ "main" false).2 "main" false).1
          = some 0 ∧
     (lb_create_procedure
        (lb_create_procedure ⟨[], [], 0, 0⟩ "main" false).2 "main" false).2
          = (lb_create_procedure ⟨[], [], 0, 0⟩ "main" false).2 ∧
     (lb_create_procedure ⟨[], [], 0, 0⟩ "main" false).2.nativeCallablesCreated
          = 0 + 1) :=
  ⟨rfl, lb_create_procedure_idempotent ⟨[], [], 0, 0⟩ "main" rfl⟩

/-- Claim C5: for an Indirect parameter under the Odin calling convention with
pointee size at most 16 bytes (or with the internal_by_value override set),
the body entry sequencer binds the parameter to a fresh pointer distinct from
the incoming one, the fresh cell holds a copy of the pointee, and a mutation
through the fresh pointer is invisible at the incoming address; for a larger
pointee without the override the incoming pointer is bound unchanged. -/
theorem lb_indirect_param_copy (s : CGState) (incoming sz : Nat)
    (hin : incoming < s.next) :
    (∀ ibv : Bool, sz ≤ 16 ∨ ibv = true →
      (lb_indirect_param_bind s incoming sz true ibv).1 ≠ incoming ∧
      (lb_indirect_param_bind s incoming sz true ibv).2.mem
          (lb_indirect_param_bind s incoming sz true ibv).1 = s.mem incoming ∧
      ∀ v : Int,
        ((lb_indirect_param_bind s incoming sz true ibv).2.write
            (lb_indirect_param_bind s incoming sz true ibv).1 v).mem incoming
          = s.mem incoming) ∧
    (16 < sz → lb_indirect_param_bind s incoming sz true false
        = (incoming, s)) := by
  constructor
  · intro ibv h
    have hc : (true && (decide (sz ≤ 16) || ibv)) = true := by
      rcases h with h | h
      · simp [h]
      · simp [h]
    have hne : incoming ≠ s.next := by omega
    refine ⟨?_, ?_, ?_⟩
    · simp [lb_indirect_param_bind, hc, CGState.alloc]
      omega
    · simp [lb_indirect_param_bind, hc, CGState.alloc, CGState.write]
    · intro v
      simp [lb_indirect_param_bind, hc, CGState.alloc, CGState.write, hne]
  · intro h
    have hns : ¬ sz ≤ 16 := by omega
    simp [lb_indirect_param_bind, hns]

/-- Witness for C5 at concrete inputs: incoming pointer 3, pointee size 8,
Odin convention, no override; and the large-pointee case at size 32. -/
theorem lb_indirect_param_copy_witness :
    3 < (CGState.mk (fun _ => 0) 5).next ∧
    ((∀ ibv : Bool, 8 ≤ 16 ∨ ibv = true →
      (lb_indirect_param_bind ⟨fun _ => 0, 5⟩ 3 8 true ibv).1 ≠ 3 ∧
      (lb_indirect_param_bind ⟨fun _ => 0, 5⟩ 3 8 true ibv).2.mem
          (lb_indirect_param_bind ⟨fun _ => 0, 5⟩ 3 8 true ibv).1
        = (CGState.mk (fun _ => 0) 5).mem 3 ∧
      ∀ v : Int,
        ((lb_indirect_param_bind ⟨fun _ => 0, 5⟩ 3 8 true ibv).2.write
            (lb_indirect_param_bind ⟨fun _ => 0, 5⟩ 3 8 true ibv).1 v).mem 3
          = (CGState.mk (fun _ => 0) 5).mem 3) ∧
     (16 < 8 → lb_indirect_param_bind ⟨fun _ => 0, 5⟩ 3 8 true false
        = (3, ⟨fun _ => 0, 5⟩))) :=
  ⟨by decide, lb_indirect_param_copy ⟨fun _ => 0, 5⟩ 3 8 (by decide)⟩

/-- Claim C6: for every positive width and both signednesses the lowered
saturating builtins clamp at the type bounds: adding one to the maximum value
saturates to the maximum and subtracting one from the minimum value saturates
to the minimum, and the intrinsic selection matches the source dispatch. -/
theorem lb_saturating_clamps (w : Nat) (_hw : 0 < w) :
    lb_saturating_unsigned w SatBuiltin.saturating_add (2 ^ w - 1) 1
        = 2 ^ w - 1 ∧
    lb_saturating_unsigned w SatBuiltin.saturating_sub 0 1 = 0 ∧
    lb_saturating_signed w SatBuiltin.saturating_add (intMax w) 1 = intMax w ∧
    lb_saturating_signed w SatBuiltin.saturating_sub (intMin w) 1 = intMin w ∧
    lb_saturating_intrinsic_name true SatBuiltin.saturating_add
        = "llvm.uadd.sat" ∧
    lb_saturating_intrinsic_name true SatBuiltin.saturating_sub
        = "llvm.usub.sat" ∧
    lb_saturating_intrinsic_name false SatBuiltin.saturating_add
        = "llvm.sadd.sat" ∧
    lb_saturating_intrinsic_name false SatBuiltin.saturating_sub
        = "llvm.ssub.sat" := by
  have h1 : 1 ≤ 2 ^ w := Nat.one_le_two_pow
  have h2 : (0 : Int) < 2 ^ (w - 1) := by positivity
  refine ⟨?_, ?_, ?_, ?_, rfl, rfl, rfl, rfl⟩
  · simp only [lb_saturating_unsigned, llvm_uadd_sat]
    omega
  · simp only [lb_saturating_unsigned, llvm_usub_sat]
  · simp only [lb_saturating_signed, llvm_sadd_sat, intMax, intMin]
    omega
  · simp only [lb_saturating_signed, llvm_ssub_sat, intMax, intMin]
    omega

/-- Witness for C6 at width 8. -/
theorem lb_saturating_clamps_witness :
    0 < 8 ∧
    (lb_saturating_unsigned 8 SatBuiltin.saturating_add (2 ^ 8 - 1) 1
        = 2 ^ 8 - 1 ∧
     lb_saturating_unsigned 8 SatBuiltin.saturating_sub 0 1 = 0 ∧
     lb_saturating_signed 8 SatBuiltin.saturating_add (intMax 8) 1
        = intMax 8 ∧
     lb_saturating_signed 8 SatBuiltin.saturating_sub (intMin 8) 1
        = intMin 8 ∧
     lb_saturating_intrinsic_name true SatBuiltin.saturating_add
        = "llvm.uadd.sat" ∧
     lb_saturating_intrinsic_name true SatBuiltin.saturating_sub
        = "llvm.usub.sat" ∧
     lb_saturating_intrinsic_name false SatBuiltin.saturating_add
        = "llvm.sadd.sat" ∧
     lb_saturating_intrinsic_name false SatBuiltin.saturating_sub
        = "llvm.ssub.sat") :=
  ⟨by omega, lb_saturating_clamps 8 (by omega)⟩

/-- Claim C3: masked SIMD shifts reduce each lane's shift amount modulo the
element bit width (the AND with sz*8 - 1 coincides with the modulus for the
power-of-two integer element sizes 1, 2, 4, 8), while the unmasked builtins
yield zero in every lane whose shift amount is at least the bit width,
selected by the compare-and-select rather than the modulo result. -/
theorem lb_simd_shift_masking (sz : Nat)
    (hsz : sz = 1 ∨ sz = 2 ∨ sz = 4 ∨ sz = 8)
    (id : SimdShiftId) (isSigned : Bool) (xs ss : List Nat) :
    (id.isMasked = true →
      lb_simd_shift id isSigned sz xs ss =
        List.zipWith
          (fun x s => simdShiftOp (sz * 8) isSigned id x (s % (sz * 8)))
          xs ss) ∧
    (id.isMasked = false →
      lb_simd_shift id isSigned sz xs ss =
        List.zipWith
          (fun x s =>
            if sz * 8 ≤ s then 0 else simdShiftOp (sz * 8) isSigned id x s)
          xs ss) := by
  have handmod : ∀ s : Nat, s &&& (sz * 8 - 1) = s % (sz * 8) := by
    intro s
    rcases hsz with h | h | h | h <;> subst h
    · have := Nat.and_pow_two_sub_one_eq_mod s 3
      norm_num at this ⊢
      exact this
    · have := Nat.and_pow_two_sub_one_eq_mod s 4
      norm_num at this ⊢
      exact this
    · have := Nat.and_pow_two_sub_one_eq_mod s 5
      norm_num at this ⊢
      exact this
    · have := Nat.and_pow_two_sub_one_eq_mod s 6
      norm_num at this ⊢
      exact this
  have hwpos : 0 < sz * 8 := by rcases hsz with h | h | h | h <;> omega
  constructor
  · intro hm
    unfold lb_simd_shift
    have : lb_simd_shift_lane id isSigned sz =
        fun x s => simdShiftOp (sz * 8) isSigned id x (s % (sz * 8)) := by
      funext x s
      simp [lb_simd_shift_lane, hm, handmod]
    rw [this]
  · intro hm
    unfold lb_simd_shift
    have : lb_simd_shift_lane id isSigned sz =
        fun x s =>
          if sz * 8 ≤ s then 0 else simdShiftOp (sz * 8) isSigned id x s := by
      funext x s
      simp only [lb_simd_shift_lane, hm, Bool.false_eq_true, if_false]
      by_cases hr : s ≤ sz * 8 - 1
      · rw [if_pos hr, if_neg (by omega)]
      · rw [if_neg hr, if_pos (by omega)]
    rw [this]

/-- Witness for C3: element size 1 (8-bit lanes), the masked left shift and a
concrete one-lane vector. -/
theorem lb_simd_shift_masking_witness :
    (1 = 1 ∨ 1 = 2 ∨ 1 = 4 ∨ 1 = 8) ∧
    ((SimdShiftId.simd_shl_masked.isMasked = true →
      lb_simd_shift SimdShiftId.simd_shl_masked false 1 [3] [9] =
        List.zipWith
          (fun x s =>
            simdShiftOp (1 * 8) false SimdShiftId.simd_shl_masked x (s % (1 * 8)))
          [3] [9]) ∧
     (SimdShiftId.simd_shl_masked.isMasked = false →
      lb_simd_shift SimdShiftId.simd_shl_masked false 1 [3] [9] =
        List.zipWith
          (fun x s =>
            if 1 * 8 ≤ s then 0
            else simdShiftOp (1 * 8) false SimdShiftId.simd_shl_masked x s)
          [3] [9])) :=
  ⟨Or.inl rfl,
   lb_simd_shift_masking 1 (Or.inl rfl) SimdShiftId.simd_shl_masked false
     [3] [9]⟩

/-- Claim C2, counterexample: the hardware table-lookup path is enumerated as
reachable at the (arm64, 48-lane, one-byte-element) pair (llvm.aarch64.neon.tbl3,
line 1771), the fallback is reachable for the same shape when the neon feature
is disabled, yet the fallback does not mask indices modulo the lane count: at
lane count 48 its AND with 47 sends index 48 to source lane 32 while the
spec's modulo rule sends it to lane 0. -/
theorem swizzle_mod_rule_counterexample :
    hardware_swizzle_intrinsic TargetArch.arm64 1 48
        = some "llvm.aarch64.neon.tbl3" ∧
    swizzle_fallback 48 (List.range 48) (List.replicate 48 48) ≠
      swizzle_spec_mod 48 (List.range 48) (List.replicate 48 48) := by
  constructor
  · rfl
  · decide

/-- Claim C2 as amended: the portable fallback masks each index by bitwise AND
with lane count minus one, which agrees with the index-modulo-lane-count rule
exactly on power-of-two lane counts; at every power-of-two lane count (all
x86 and wasm hardware pairs and the 8/16/32/64-lane ARM pairs) the fallback
and the spec-modelled mod-rule lowering produce bit-for-bit identical result
vectors on every (vector, index-vector) input. -/
theorem swizzle_fallback_matches_mod_rule_pow2 (count k : Nat)
    (hcount : count = 2 ^ k) (src idx : List Nat) :
    swizzle_fallback count src idx = swizzle_spec_mod count src idx := by
  subst hcount
  unfold swizzle_fallback swizzle_spec_mod
  congr 1
  funext i
  rw [Nat.and_pow_two_sub_one_eq_mod]

/-- Witness for the amended C2 at 16 lanes with an out-of-range index. -/
theorem swizzle_fallback_matches_mod_rule_pow2_witness :
    16 = 2 ^ 4 ∧
    swizzle_fallback 16 (List.range 16) (List.replicate 16 17)
      = swizzle_spec_mod 16 (List.range 16) (List.replicate 16 17) :=
  ⟨rfl, swizzle_fallback_matches_mod_rule_pow2 16 4 rfl (List.range 16)
    (List.replicate 16 17)⟩

/-- Helper for C8: before the variadic index the positional loop adds every
argument as an ordinary value. -/
theorem lb_positional_args_all_fixed (variadicIndex : Nat) :
    ∀ (l : List Int) (i : Nat), i + l.length ≤ variadicIndex →
    lb_positional_args true variadicIndex i l = l.map CallArg.value := by
  intro l
  induction l with
  | nil => intro i _; rfl
  | cons v rest ih =>
    intro i h
    have hne : (variadicIndex == i) = false := by
      simp only [beq_eq_false_iff_ne, ne_eq]
      simp only [List.length_cons] at h
      omega
    have hrest := ih (i + 1) (by simp only [List.length_cons] at h; omega)
    simp [lb_positional_args, hne, hrest]

/-- Claim C8: a call through a non-C-variadic procedure with a variadic
parameter and zero variadic arguments at the call site receives the slice nil
value at the variadic position, the assembled argument list has the full
parameter count, and no slot is left unset — the native call is never issued
with a missing hidden slice argument. -/
theorem lb_build_call_args_zero_variadic
    (paramCount variadicIndex : Nat) (positional : List Int)
    (hvar : variadicIndex < paramCount)
    (hzero : positional.length ≤ variadicIndex) :
    (lb_build_call_args paramCount variadicIndex true positional).length
        = paramCount ∧
    (lb_build_call_args paramCount variadicIndex true positional).getD
        variadicIndex CallArg.unset = CallArg.nilSlice ∧
    CallArg.unset ∉ lb_build_call_args paramCount variadicIndex true positional := by
  have hpos := lb_positional_args_all_fixed variadicIndex positional 0
    (by omega)
  have hlen : (positional.map CallArg.value).length = positional.length := by
    simp
  have htake : (positional.map CallArg.value).take paramCount
      = positional.map CallArg.value := by
    apply List.take_of_length_le
    omega
  simp only [lb_build_call_args]
  rw [hpos, htake, hlen]
  refine ⟨by simp [lb_fixup_args], ?_, ?_⟩
  · unfold lb_fixup_args
    have hget : ((List.range paramCount).map
        (fun idx =>
          let a := (positional.map CallArg.value ++
            List.replicate (paramCount - positional.length) CallArg.unset).getD
              idx CallArg.unset
          if true && idx == variadicIndex then
            match a with
            | CallArg.unset => CallArg.nilSlice
            | other => other
          else
            match a with
            | CallArg.unset => CallArg.defaulted
            | other => other)).getD variadicIndex CallArg.unset
        = (fun idx =>
          let a := (positional.map CallArg.value ++
            List.replicate (paramCount - positional.length) CallArg.unset).getD
              idx CallArg.unset
          if true && idx == variadicIndex then
            match a with
            | CallArg.unset => CallArg.nilSlice
            | other => other
          else
            match a with
            | CallArg.unset => CallArg.defaulted
            | other => other) variadicIndex := by
      rw [List.getD_eq_getElem?_getD, List.getElem?_map, List.getElem?_range
        hvar]
      rfl
    rw [hget]
    have hslot : (positional.map CallArg.value ++
        List.replicate (paramCount - positional.length) CallArg.unset).getD
          variadicIndex CallArg.unset = CallArg.unset := by
      rw [List.getD_eq_getElem?_getD, List.getElem?_append_right
        (by simpa using hzero)]
      simp only [List.getElem?_replicate]
      split <;> rfl
    simp only [hslot, beq_self_eq_true, Bool.true_and, if_pos]
  · intro hmem
    unfold lb_fixup_args at hmem
    simp only [List.mem_map, List.mem_range] at hmem
    obtain ⟨i, _, hEq⟩ := hmem
    revert hEq
    cases harg : (positional.map CallArg.value ++
        List.replicate (paramCount - positional.length) CallArg.unset).getD
          i CallArg.unset <;>
      simp [harg] <;> split <;> simp

/-- Witness for C8: three parameters, the variadic one last, two supplied
positional arguments and zero variadic arguments. -/
theorem lb_build_call_args_zero_variadic_witness :
    2 < 3 ∧ ([(5 : Int), 7] : List Int).length ≤ 2 ∧
    ((lb_build_call_args 3 2 true [5, 7]).length = 3 ∧
     (lb_build_call_args 3 2 true [5, 7]).getD 2 CallArg.unset
        = CallArg.nilSlice ∧
     CallArg.unset ∉ lb_build_call_args 3 2 true [5, 7]) :=
  ⟨by omega, by simp,
   lb_build_call_args_zero_variadic 3 2 [5, 7] (by omega) (by simp)⟩

/-- Helper for C4: on a list of values that are all loads of addressable
locations, the by-pointer conversion returns exactly the source addresses and
leaves the state unchanged (no fresh locals). -/
theorem mapAddrs_all_loaded :
    ∀ (l : List LBVal) (s : CGState),
    (∀ x ∈ l, ∃ a v, x = LBVal.loadedFrom a v) →
    mapAddrs s l = (l.map LBVal.srcAddr, s) := by
  intro l
  induction l with
  | nil => intro s _; rfl
  | cons x xs ih =>
    intro s h
    obtain ⟨a, v, rfl⟩ := h x (by simp)
    have hxs := ih s (fun y hy => h y (by simp [hy]))
    simp [mapAddrs, lb_address_from_load_or_generate_local, LBVal.srcAddr, hxs]

/-- Claim C4: for a callee with an in-by-pointer deferred companion, when the
original call arguments are loads of the caller's argument storage, the
argument list registered for the Deferred Call Entry consists exactly of the
addresses of that original storage — no fresh copies are allocated (the state
is unchanged) — so a write through those pointers inside the companion lands
in the caller's original argument storage. -/
theorem lb_attach_deferred_in_by_ptr (inArgs outVals : List LBVal)
    (s : CGState) (h : ∀ x ∈ inArgs, ∃ a v, x = LBVal.loadedFrom a v) :
    (lb_attach_deferred DeferredKind.in_by_ptr inArgs outVals s).1
        = inArgs.map (fun x => DeferArg.byPtrArg x.srcAddr) ∧
    (lb_attach_deferred DeferredKind.in_by_ptr inArgs outVals s).2 = s := by
  simp [lb_attach_deferred, DeferredKind.byPtr,
    mapAddrs_all_loaded inArgs s h]

/-- Witness for C4: one argument loaded from caller storage at address 3. -/
theorem lb_attach_deferred_in_by_ptr_witness :
    (∀ x ∈ [LBVal.loadedFrom 3 5], ∃ a v, x = LBVal.loadedFrom a v) ∧
    ((lb_attach_deferred DeferredKind.in_by_ptr [LBVal.loadedFrom 3 5] []
        ⟨fun _ => 0, 10⟩).1
      = [LBVal.loadedFrom 3 5].map (fun x => DeferArg.byPtrArg x.srcAddr) ∧
     (lb_attach_deferred DeferredKind.in_by_ptr [LBVal.loadedFrom 3 5] []
        ⟨fun _ => 0, 10⟩).2 = ⟨fun _ => 0, 10⟩) :=
  ⟨fun x hx => ⟨3, 5, by simpa using hx⟩,
   lb_attach_deferred_in_by_ptr [LBVal.loadedFrom 3 5] [] ⟨fun _ => 0, 10⟩
     (fun x hx => ⟨3, 5, by simpa using hx⟩)⟩

/-- Helper for C1: lookup of the first entry of a two-entry map. -/
theorem natMapLookup_pair_first (p q : Nat) (vs ws : List Int) :
    natMapLookup [(p, vs), (q, ws)] p = some vs := by
  unfold natMapLookup
  rw [List.find?_cons_of_pos _ (by simp)]
  rfl

/-- Helper for C1: lookup of the second entry of a two-entry map with
distinct keys. -/
theorem natMapLookup_pair_second (p q : Nat) (vs ws : List Int) (h : p ≠ q) :
    natMapLookup [(p, vs), (q, ws)] q = some ws := by
  unfold natMapLookup
  rw [List.find?_cons_of_neg _ (by simp [h]), List.find?_cons_of_pos _ (by simp)]
  rfl

/-- Claim C1: after a split-return call the reconstructed value list is
exactly the loads of the hidden trailing pointers followed by the direct
result, this same list is recorded in the tuple-fix map under both the
temporary storage pointer and the loaded aggregate value, and its leading
entries coincide with reading each hidden pointer slot directly (which hold
the values the callee stored). -/
theorem lb_emit_call_split_tuple_fix (fixedArgs : List Nat) (n : Nat)
    (calleeSlot : Nat → Int) (direct : Int) (s : CGState) :
    natMapLookup
        (lb_emit_call_split fixedArgs n calleeSlot direct s).tupleFixMap
        (lb_emit_call_split fixedArgs n calleeSlot direct s).resultPtrKey
      = some (lb_emit_call_split fixedArgs n calleeSlot direct s).tupleFixValues ∧
    natMapLookup
        (lb_emit_call_split fixedArgs n calleeSlot direct s).tupleFixMap
        (lb_emit_call_split fixedArgs n calleeSlot direct s).loadedResultKey
      = some (lb_emit_call_split fixedArgs n calleeSlot direct s).tupleFixValues ∧
    (lb_emit_call_split fixedArgs n calleeSlot direct s).tupleFixValues
      = ((List.range (n - 1)).map fun j =>
          (lb_emit_call_split fixedArgs n calleeSlot direct s).state.mem
            ((lb_emit_call_split fixedArgs n calleeSlot direct
                s).hiddenRetPtrs.getD j 0)) ++ [direct] ∧
    ((List.range (n - 1)).map fun j =>
        (lb_emit_call_split fixedArgs n calleeSlot direct s).state.mem
          ((lb_emit_call_split fixedArgs n calleeSlot direct
              s).hiddenRetPtrs.getD j 0))
      = (List.range (n - 1)).map calleeSlot := by
  have hfst := allocN_fst (n - 1) s
  have hlen : (allocN (n - 1) s).1.length = n - 1 := by
    rw [hfst]; simp
  have hnd : (allocN (n - 1) s).1.Nodup := by
    rw [hfst]
    exact List.Nodup.map (fun a b hab => by omega) (List.nodup_range _)
  have hlane : ∀ j, j < n - 1 →
      (callWrite calleeSlot (allocN (n - 1) s).1 (allocN (n - 1) s).2).mem
        ((allocN (n - 1) s).1.getD j 0) = calleeSlot j := by
    intro j hj
    have hj2 : j < (allocN (n - 1) s).1.length := by rw [hlen]; exact hj
    have hgetD : (allocN (n - 1) s).1.getD j 0
        = (allocN (n - 1) s).1.get ⟨j, hj2⟩ := by
      rw [List.getD_eq_getElem?_getD, List.getElem?_eq_getElem hj2]
      rfl
    rw [hgetD]
    unfold callWrite
    rw [callWriteAux_mem_at calleeSlot (allocN (n - 1) s).1 0
      (allocN (n - 1) s).2 j hj2 hnd]
    simp
  have happ : ∀ j, (fixedArgs ++ (allocN (n - 1) s).1).getD
      (fixedArgs.length + j) 0 = (allocN (n - 1) s).1.getD j 0 := by
    intro j
    rw [List.getD_eq_getElem?_getD, List.getElem?_append_right (by omega)]
    have hsub : fixedArgs.length + j - fixedArgs.length = j := by omega
    rw [hsub, List.getD_eq_getElem?_getD]
  simp only [lb_emit_call_split, CGState.alloc]
  refine ⟨?_, ?_, ?_, ?_⟩
  · exact natMapLookup_pair_first _ _ _ _
  · exact natMapLookup_pair_second _ _ _ _ (by omega)
  · congr 1
    exact map_range_ext (n - 1) _ _ (fun j _ => by rw [happ j])
  · exact map_range_ext (n - 1) _ _ (fun j hj => hlane j hj)

end OdinLB
